import Mathlib

/-!
# Verification of the questionnaire table processor (hw5.py)

Shallow embedding of the tabular operations of `QuestionnaireAnalysis`:
age-distribution binning, email filtering, missing-grade imputation,
subject scoring and the gender/age correlation summary.

Numeric cell values are modelled as `Option ℚ` (`none` is pandas NaN/NA;
float arithmetic on the small integer grades involved is exact, so ℚ is a
faithful carrier).  A pandas DataFrame with its row index is modelled by
`Frame`; operations that only read the column data take a plain `List Row`.
-/

namespace HW5

/-- One participant row: `age` and `gender` may be missing, `email` is a
string, `q1..q5` are the five grades, each possibly missing (NaN). -/
structure Row where
  age : Option ℚ
  gender : Option String
  email : String
  q1 : Option ℚ
  q2 : Option ℚ
  q3 : Option ℚ
  q4 : Option ℚ
  q5 : Option ℚ
deriving DecidableEq, Repr

/-- The five grade cells of a row, in column order q1..q5
(`self.data.loc[:, 'q1':'q5']` on one row). -/
def gradesOf (r : Row) : List (Option ℚ) := [r.q1, r.q2, r.q3, r.q4, r.q5]

/-- The present (non-NaN) grades of a row, in column order. -/
def presentGrades (r : Row) : List ℚ := (gradesOf r).filterMap id

/-- Number of missing grades of a row (`grades.isna().sum(axis=1)`). -/
def naCount (r : Row) : ℕ := (gradesOf r).countP (fun g => g.isNone)

/-! ## Email pattern

The source filters with `str.contains` on the anchored regex

  `^[a-z0-9]+[\._]?[a-z0-9]+[@]\w+[.]\w{1,6}$`

`str.contains` performs a regex search, but the pattern is anchored at both
ends, so it holds exactly when the whole string matches — except that
Python's `$` also matches just before one trailing newline, which the
embedding reproduces.  `\w` is modelled as ASCII word characters
(letters of either case, digits, underscore); the repository's data only
contains ASCII emails, and every concrete string used below is ASCII. -/

/-- Characters matched by the class `[a-z0-9]`. -/
def isLowAlnum (c : Char) : Bool :=
  ((('a' : Char) ≤ c) && (c ≤ ('z' : Char))) ||
  ((('0' : Char) ≤ c) && (c ≤ ('9' : Char)))

/-- Characters matched by the class `[\._]` (a literal dot or underscore). -/
def isSepChar (c : Char) : Bool := (c = ('.' : Char)) || (c = ('_' : Char))

/-- Characters matched by `\w` (ASCII): letters of either case, digits and
underscore. -/
def isWordChar (c : Char) : Bool :=
  isLowAlnum c || ((('A' : Char) ≤ c) && (c ≤ ('Z' : Char))) || (c = ('_' : Char))

/-- Does the list of characters match `[a-z0-9]+[\._]?[a-z0-9]+` entirely?
The two split points `i ≤ j` delimit the optional one-character separator:
`l.take i` is the first alphanumeric run, `(l.drop i).take (j - i)` the
separator (zero or one characters), `l.drop j` the second run. -/
def localMatch (l : List Char) : Bool :=
  (List.range (l.length + 1)).any (fun i =>
    (List.range (l.length + 1)).any (fun j =>
      decide (i ≤ j ∧ j ≤ l.length ∧ j - i ≤ 1 ∧
        l.take i ≠ [] ∧ (∀ c ∈ l.take i, isLowAlnum c) ∧
        (∀ c ∈ (l.drop i).take (j - i), isSepChar c) ∧
        l.drop j ≠ [] ∧ (∀ c ∈ l.drop j, isLowAlnum c))))

/-- Does the list of characters match `\w+[.]\w{1,6}` entirely?  The split
point `i` ends the `\w+` run; a literal dot must follow, then one to six
word characters to the end. -/
def domainMatch (d : List Char) : Bool :=
  (List.range (d.length + 1)).any (fun i =>
    decide (d.take i ≠ [] ∧ (∀ c ∈ d.take i, isWordChar c) ∧
      (d.drop i).head? = some ('.' : Char) ∧
      1 ≤ (d.drop i).tail.length ∧ (d.drop i).tail.length ≤ 6 ∧
      (∀ c ∈ (d.drop i).tail, isWordChar c)))

/-- Python's `$` anchor matches at the end of the string or just before one
final newline: strip a single trailing newline if present. -/
def pyAnchor (l : List Char) : List Char :=
  if l.getLast? = some ('\n' : Char) then l.dropLast else l

/-- Whole-string match of `^[a-z0-9]+[\._]?[a-z0-9]+[@]\w+[.]\w{1,6}$` as
performed by `Series.str.contains` (regex search with both anchors; one
trailing newline is tolerated by `$`). -/
def emailMatch (s : String) : Bool :=
  let l := pyAnchor s.toList
  (List.range (l.length + 1)).any (fun i =>
    localMatch (l.take i) &&
    decide ((l.drop i).head? = some ('@' : Char)) &&
    domainMatch (l.drop i).tail)

/-! ### The pattern as the specification words it

`LocalPat`, `DomainPat` and `EmailPat` restate the retained-email shape
structurally, following the specification text: a local part of one or
more lowercase alphanumerics, an optional single `.` or `_` separator
followed by one or more lowercase alphanumerics, `@`, one or more word
characters, a literal dot, then one to six word characters.  They are
proved equivalent to the regex-shaped matcher. -/

/-- Pattern `[a-z0-9]+` then an optional single `.`/`_` then `[a-z0-9]+`. -/
def LocalPat (l : List Char) : Prop :=
  ∃ a sep b : List Char,
    l = a ++ (sep ++ b) ∧
    a ≠ [] ∧ (∀ c ∈ a, isLowAlnum c) ∧
    (sep = [] ∨ ∃ c, sep = [c] ∧ isSepChar c) ∧
    b ≠ [] ∧ (∀ c ∈ b, isLowAlnum c)

/-- Pattern `\w+` then a literal dot then one to six `\w` characters. -/
def DomainPat (d : List Char) : Prop :=
  ∃ w t : List Char,
    d = w ++ (('.' : Char) :: t) ∧
    w ≠ [] ∧ (∀ c ∈ w, isWordChar c) ∧
    1 ≤ t.length ∧ t.length ≤ 6 ∧ (∀ c ∈ t, isWordChar c)

/-- The full email pattern: local part, `@`, domain. -/
def EmailPat (l : List Char) : Prop :=
  ∃ loc dom : List Char,
    l = loc ++ (('@' : Char) :: dom) ∧ LocalPat loc ∧ DomainPat dom

/-! ## Frames and the email filter

`remove_rows_without_mail` returns
`self.data[self.data['email'].str.contains(regex)].reset_index()`.
Boolean-mask selection keeps the matching rows together with their index
labels; `reset_index()` (without `drop=True`) then replaces the index with
a fresh `RangeIndex 0..N-1` and inserts the old index labels as a new
leading column, named `index`, or `level_0` when a column `index` already
exists, and fails when both exist. -/

/-- A DataFrame for the email filter: the fixed participant columns
(`rows`), the row-index labels (`index`), and any columns inserted by
earlier `reset_index` calls (`extra`, newest first, each holding one label
per row).  The fixed participant columns can never be named `index` or
`level_0`, so only `extra` matters for the name clash in `reset_index`. -/
structure Frame where
  rows : List Row
  index : List ℕ
  extra : List (String × List ℕ)
deriving DecidableEq, Repr

/-- Positions of the rows kept by the email mask. -/
def keepPos (f : Frame) : List ℕ :=
  (List.range f.rows.length).filter (fun i =>
    match f.rows.get? i with
    | some r => emailMatch r.email
    | none => false)

/-- Select the entries of a column at the given positions. -/
def selectAt (ps : List ℕ) (col : List ℕ) : List ℕ :=
  ps.filterMap (fun i => col.get? i)

/-- The name `reset_index` gives the inserted column: `index`, or `level_0`
when taken, or `none` (a `ValueError`) when both are taken. -/
def resetName (taken : List String) : Option String :=
  if "index" ∈ taken then
    if "level_0" ∈ taken then none else some "level_0"
  else some "index"

/-- Model of `remove_rows_without_mail`: keep the rows whose email matches the
pattern, then `reset_index()` — fresh ordinal index, old labels inserted
as a new leading extra column.  `none` models the `ValueError` raised when
both candidate column names are taken. -/
def removeRowsWithoutMail (f : Frame) : Option Frame :=
  let ps := keepPos f
  let keptRows := f.rows.filter (fun r => emailMatch r.email)
  let keptIndex := selectAt ps f.index
  let keptExtra := f.extra.map (fun c => (c.1, selectAt ps c.2))
  match resetName (keptExtra.map (fun c => c.1)) with
  | none => none
  | some nm =>
      some { rows := keptRows,
             index := List.range keptRows.length,
             extra := (nm, keptIndex) :: keptExtra }

/-! ## Missing-grade imputation (`fill_na_with_mean`) -/

/-- Row-wise NaN-skipping mean of the grades (`grades.mean(axis=1)`):
`none` (NaN) when all five grades are missing. -/
def rowMean (r : Row) : Option ℚ :=
  if presentGrades r = [] then none
  else some ((presentGrades r).sum / (presentGrades r).length)

/-- Semantics of `fillna` on one cell: a present value is kept; a missing one receives
the fill value (filling with NaN, i.e. `none`, leaves it missing). -/
def fillCell (v : Option ℚ) (c : Option ℚ) : Option ℚ :=
  match c with
  | some x => some x
  | none => v

/-- Effect of `grades.T.fillna(grades.mean(axis=1)).T` restricted to one row: every
missing grade becomes the row mean of the originally present grades. -/
def fillRow (r : Row) : Row :=
  { r with
    q1 := fillCell (rowMean r) r.q1
    q2 := fillCell (rowMean r) r.q2
    q3 := fillCell (rowMean r) r.q3
    q4 := fillCell (rowMean r) r.q4
    q5 := fillCell (rowMean r) r.q5 }

/-- Model of `fill_na_with_mean`: records `np.where(grades.isna().any(axis=1))[0]`
(the positions, ascending, of rows with at least one missing grade), fills
each missing grade with its row's mean of present grades, writes the grades
back and returns the table together with the recorded positions. -/
def fillNaWithMean (t : List Row) : List Row × List ℕ :=
  let naIdx := (List.range t.length).filter (fun i =>
    match t.get? i with
    | some r => decide (0 < naCount r)
    | none => false)
  (t.map fillRow, naIdx)

/-! ## Subject scoring (`score_subjects`) -/

/-- Floor (`np.floor`) of the NaN-skipping row mean: NaN (`none`) when no grade is
present. -/
def rowMeanFloor (r : Row) : Option ℤ :=
  (rowMean r).map (fun x => Int.floor x)

/-- Model of `score_subjects`, as the produced `score` column: the floored
NaN-skipping row means, with the positions where the count of missing
grades strictly exceeds `maximalNansPerSub` overwritten by NaN
(`df['score'].loc[na_index] = np.nan`).  The final nullable-`UInt8`
materialisation keeps NA as NA and is exact on the small integer values
that arise from grades, so the column is carried as `Option ℤ`. -/
def scoreSubjects (t : List Row) (maximalNansPerSub : ℕ) : List (Option ℤ) :=
  let naIdx := (List.range t.length).filter (fun i =>
    match t.get? i with
    | some r => decide (maximalNansPerSub < naCount r)
    | none => false)
  (List.range t.length).map (fun i =>
    if i ∈ naIdx then none
    else match t.get? i with
    | some r => rowMeanFloor r
    | none => none)

/-! ## Age distribution (`show_age_distrib`) -/

/-- Edges `np.linspace(0, 100, 11)`: the eleven bin edges 0, 10, ..., 100. -/
def ageEdges : List ℚ := (List.range 11).map (fun k => (10 : ℚ) * k)

/-- Counts of `np.histogram` for explicit monotone bin edges: each bin is
half-open `[e i, e (i+1))` except the last, which is closed on the right. -/
def histCounts (xs : List ℚ) : List ℚ → List ℕ
  | [lo, hi] => [xs.countP (fun x => decide (lo ≤ x ∧ x ≤ hi))]
  | lo :: hi :: e :: rest =>
      xs.countP (fun x => decide (lo ≤ x ∧ x < hi)) ::
        histCounts xs (hi :: e :: rest)
  | _ => []

/-- The present ages of the table (`self.data['age']`; NaN ages fall in no
bin). -/
def presentAges (t : List Row) : List ℚ := t.filterMap (fun r => r.age)

/-- Model of `show_age_distrib`: the histogram counts over the ten equal-width bins
spanning [0, 100] and the bin edges.  The table is returned unchanged
alongside, mirroring that the method reads `self.data` without mutating
it. -/
def showAgeDistrib (t : List Row) : List Row × (List ℕ × List ℚ) :=
  (t, (histCounts (presentAges t) ageEdges, ageEdges))

/-! ## Gender/age correlation summary (`correlate_gender_age`) -/

/-- The group key of a row under
`groupby([None, lambda age: age > 40], level=['gender', 'age'])`:
`none` when gender is missing (pandas drops NaN group keys); otherwise the
pair of the gender and `age > 40`, where a missing age compares as not
greater than 40 (`NaN > 40` is `False` in Python). -/
def rowKey (r : Row) : Option (String × Bool) :=
  match r.gender with
  | none => none
  | some g =>
      some (g, match r.age with
        | some a => decide (40 < a)
        | none => false)

/-- Sort order of group keys: gender first (lexicographic string order),
then the boolean with `False` before `True`. -/
def keyLE (k₁ k₂ : String × Bool) : Bool :=
  if k₁.1 = k₂.1 then !k₁.2 || k₂.2 else decide (k₁.1 < k₂.1)

/-- The rows of the group with the given key. -/
def groupRows (t : List Row) (k : String × Bool) : List Row :=
  t.filter (fun r => decide (rowKey r = some k))

/-- The distinct group keys occurring in the table, in ascending key
order (`groupby` default `sort=True`). -/
def sortedKeys (t : List Row) : List (String × Bool) :=
  ((t.filterMap rowKey).dedup).mergeSort keyLE

/-- NaN-skipping mean of one grade column over a group (`none` when the
column has no present value in the group). -/
def colMean (gs : List (Option ℚ)) : Option ℚ :=
  let v := gs.filterMap id
  if v = [] then none else some (v.sum / v.length)

/-- The five per-column group means, in column order q1..q5. -/
def qMeans (rs : List Row) : List (Option ℚ) :=
  [colMean (rs.map (fun r => r.q1)),
   colMean (rs.map (fun r => r.q2)),
   colMean (rs.map (fun r => r.q3)),
   colMean (rs.map (fun r => r.q4)),
   colMean (rs.map (fun r => r.q5))]

/-- Model of `correlate_gender_age`: one output row per occurring
(gender, age > 40) key with non-missing gender, in ascending key order,
holding the NaN-skipping means of q1..q5 over that group. -/
def correlateGenderAge (t : List Row) : List ((String × Bool) × List (Option ℚ)) :=
  (sortedKeys t).map (fun k => (k, qMeans (groupRows t k)))

/-! ## Construction (`__init__`) -/

/-- Model of `__init__`: with the filesystem abstracted as the predicate `isFile`
(`pathlib.Path(p).is_file()`), the constructor stores the path when it
names an existing file and raises `ValueError` otherwise; nothing else is
validated. -/
def initProcessor (isFile : String → Bool) (dataFname : String) :
    Except Unit String :=
  if isFile dataFname then Except.ok dataFname else Except.error ()

/-- State-passing form of `remove_rows_without_mail`: the method reads
`self.data` without reassigning it and returns the new frame, so the
stored table comes back unchanged alongside the result. -/
def removeRowsWithoutMailS (f : Frame) : Frame × Option Frame :=
  (f, removeRowsWithoutMail f)

/-! ## Concrete example data

Rows and frames used by the witnesses and counterexamples below. -/

/-- A row whose email `ab@b.c` matches the filter pattern. -/
def exRowKept : Row := ⟨none, none, "ab@b.c", none, none, none, none, none⟩

/-- A row whose email `ab@EXAMPLE.COM` has an uppercase domain. -/
def exRowUpper : Row := ⟨none, none, "ab@EXAMPLE.COM", none, none, none, none, none⟩

/-- A one-row frame with a matching email and a fresh ordinal index. -/
def exFrameOk : Frame := ⟨[exRowKept], [0], []⟩

/-- Frame `exFrameOk` after one email filtering. -/
def exFrameOnce : Frame := ⟨[exRowKept], [0], [("index", [0])]⟩

/-- Frame `exFrameOk` after two email filterings. -/
def exFrameTwice : Frame := ⟨[exRowKept], [0], [("level_0", [0]), ("index", [0])]⟩

/-- A one-row frame around the uppercase-domain email. -/
def exFrameUpper : Frame := ⟨[exRowUpper], [0], []⟩

/-- Grades [80, NA, 90, NA, 100]: two missing, three present, mean 90. -/
def exRowImpute : Row :=
  ⟨some 30, some "f", "a", some 80, none, some 90, none, some 100⟩

/-- All five grades missing. -/
def exRowAllNA : Row := ⟨some 30, some "f", "a", none, none, none, none, none⟩

/-- Grades [81, 82, 83, 84, 85]: none missing, mean 83. -/
def exRowFull : Row :=
  ⟨some 30, some "f", "a", some 81, some 82, some 83, some 84, some 85⟩

/-- Grades [80, 90, 100, NA, NA]: two missing. -/
def exRowScoreNA : Row :=
  ⟨some 30, some "f", "a", some 80, some 90, some 100, none, none⟩

/-- Male, age 35. -/
def exRowM35 : Row := ⟨some 35, some "male", "a", some 10, none, none, none, none⟩

/-- Male, age 45. -/
def exRowM45 : Row := ⟨some 45, some "male", "a", some 20, none, none, none, none⟩

/-- Missing gender, age 50. -/
def exRowGenderNA : Row := ⟨some 50, none, "a", some 7, none, none, none, none⟩

/-- Missing age, male. -/
def exRowAgeNA : Row := ⟨none, some "male", "a", some 30, none, none, none, none⟩

/-! ### Equivalence of the matcher with the structural pattern -/

theorem localMatch_iff (l : List Char) : localMatch l = true ↔ LocalPat l := by
  constructor
  · intro h
    rw [localMatch, List.any_eq_true] at h
    obtain ⟨i, -, h⟩ := h
    rw [List.any_eq_true] at h
    obtain ⟨j, -, h⟩ := h
    rw [decide_eq_true_eq] at h
    obtain ⟨hij, hjl, hsep1, ha, hal, hsl, hb, hbl⟩ := h
    refine ⟨l.take i, (l.drop i).take (j - i), l.drop j, ?_, ha, hal, ?_, hb, hbl⟩
    · have h2 : ((l.drop i).take (j - i)) ++ ((l.drop i).drop (j - i)) = l.drop i :=
        List.take_append_drop _ _
      have h3 : (l.drop i).drop (j - i) = l.drop j := by
        rw [List.drop_drop]
        congr 1
        omega
      rw [← h3, h2, List.take_append_drop]
    · rcases hmid : (l.drop i).take (j - i) with _ | ⟨c, rest⟩
      · exact Or.inl rfl
      · refine Or.inr ⟨c, ?_, ?_⟩
        · have hlen : ((l.drop i).take (j - i)).length ≤ j - i := by
            rw [List.length_take]
            omega
          rw [hmid] at hlen
          simp only [List.length_cons] at hlen
          have : rest = [] := List.eq_nil_of_length_eq_zero (by omega)
          rw [this]
        · have : c ∈ (l.drop i).take (j - i) := by
            rw [hmid]
            exact List.mem_cons_self _ _
          exact hsl c this
  · rintro ⟨a, sep, b, rfl, ha, hal, hsep, hb, hbl⟩
    rw [localMatch, List.any_eq_true]
    refine ⟨a.length, ?_, ?_⟩
    · rw [List.mem_range]
      simp only [List.length_append]
      omega
    rw [List.any_eq_true]
    refine ⟨a.length + sep.length, ?_, ?_⟩
    · rw [List.mem_range]
      simp only [List.length_append]
      omega
    have htake : (a ++ (sep ++ b)).take a.length = a := List.take_left a _
    have hdropa : (a ++ (sep ++ b)).drop a.length = sep ++ b := List.drop_left a _
    have hdropj : (a ++ (sep ++ b)).drop (a.length + sep.length) = b := by
      rw [← List.append_assoc]
      exact List.drop_left' (by rw [List.length_append])
    rw [decide_eq_true_eq]
    refine ⟨by omega, by simp only [List.length_append]; omega, ?_, ?_, ?_, ?_, ?_, ?_⟩
    · rcases hsep with rfl | ⟨c, rfl, -⟩ <;> simp
    · rw [htake]; exact ha
    · rw [htake]; exact hal
    · rw [hdropa]
      intro c hc
      rcases hsep with rfl | ⟨c₀, rfl, hc₀⟩
      · simp at hc
      · have hc₁ : c ∈ ([c₀] ++ b).take (a.length + [c₀].length - a.length) := hc
        simp at hc₁
        rw [hc₁]
        exact hc₀
    · rw [hdropj]; exact hb
    · rw [hdropj]; exact hbl

theorem domainMatch_iff (d : List Char) : domainMatch d = true ↔ DomainPat d := by
  constructor
  · intro h
    rw [domainMatch, List.any_eq_true] at h
    obtain ⟨i, -, h⟩ := h
    rw [decide_eq_true_eq] at h
    obtain ⟨hw, hwall, hhead, ht1, ht6, htall⟩ := h
    refine ⟨d.take i, (d.drop i).tail, ?_, hw, hwall, ht1, ht6, htall⟩
    have hcons : ('.' : Char) :: (d.drop i).tail = d.drop i :=
      List.cons_head?_tail hhead
    rw [hcons, List.take_append_drop]
  · rintro ⟨w, t, rfl, hw, hwall, ht1, ht6, htall⟩
    rw [domainMatch, List.any_eq_true]
    refine ⟨w.length, ?_, ?_⟩
    · rw [List.mem_range]
      simp only [List.length_append]
      omega
    have hdrop : (w ++ (('.' : Char) :: t)).drop w.length = ('.' : Char) :: t :=
      List.drop_left w _
    have htake : (w ++ (('.' : Char) :: t)).take w.length = w := List.take_left w _
    rw [decide_eq_true_eq, hdrop, htake]
    exact ⟨hw, hwall, rfl, ht1, ht6, htall⟩

theorem emailMatch_iff (s : String) :
    emailMatch s = true ↔ EmailPat (pyAnchor s.toList) := by
  rw [emailMatch]
  constructor
  · intro h
    rw [List.any_eq_true] at h
    obtain ⟨i, -, h⟩ := h
    rw [Bool.and_eq_true, Bool.and_eq_true, decide_eq_true_eq] at h
    obtain ⟨⟨hloc, hat⟩, hdom⟩ := h
    refine ⟨(pyAnchor s.toList).take i, ((pyAnchor s.toList).drop i).tail, ?_,
      (localMatch_iff _).mp hloc, (domainMatch_iff _).mp hdom⟩
    have hcons : ('@' : Char) :: ((pyAnchor s.toList).drop i).tail =
        (pyAnchor s.toList).drop i := List.cons_head?_tail hat
    rw [hcons, List.take_append_drop]
  · rintro ⟨loc, dom, heq, hloc, hdom⟩
    rw [List.any_eq_true]
    refine ⟨loc.length, ?_, ?_⟩
    · rw [List.mem_range, heq]
      simp only [List.length_append]
      omega
    have hdrop : (pyAnchor s.toList).drop loc.length = ('@' : Char) :: dom := by
      rw [heq]
      exact List.drop_left loc _
    have htake : (pyAnchor s.toList).take loc.length = loc := by
      rw [heq]
      exact List.take_left loc _
    rw [Bool.and_eq_true, Bool.and_eq_true, decide_eq_true_eq, hdrop, htake]
    exact ⟨⟨(localMatch_iff _).mpr hloc, rfl⟩, (domainMatch_iff _).mpr hdom⟩

/-! ### The email filter on frames -/

theorem removeMail_eq (f g : Frame) (h : removeRowsWithoutMail f = some g) :
    g.rows = f.rows.filter (fun r => emailMatch r.email) ∧
    g.index = List.range g.rows.length := by
  rw [removeRowsWithoutMail] at h
  split at h
  · exact absurd h (by simp)
  · rw [Option.some.injEq] at h
    subst h
    exact ⟨rfl, rfl⟩

/-- Claim C8: the email-filtering operation returns a new table whose row
index is reset to the contiguous ordinal sequence 0..N-1 starting at 0
with no gaps, and leaves the original table unmodified (the stored table
comes back unchanged in the state-passing form). -/
theorem email_filter_resets_index (f g : Frame)
    (h : removeRowsWithoutMail f = some g) :
    g.index = List.range g.rows.length ∧
    removeRowsWithoutMailS f = (f, some g) := by
  refine ⟨(removeMail_eq f g h).2, ?_⟩
  rw [removeRowsWithoutMailS, h]

/-- Witness for C8 at a concrete one-row frame. -/
theorem email_filter_resets_index_witness :
    exFrameOnce.index = List.range exFrameOnce.rows.length ∧
    removeRowsWithoutMailS exFrameOk = (exFrameOk, some exFrameOnce) :=
  email_filter_resets_index exFrameOk exFrameOnce (by decide)

/-- Claim C1 (amended): the email filter retains exactly the rows whose
email matches, anchored at both ends, the pattern — one-or-more lowercase
alphanumerics, an optional single `.` or `_` followed by a mandatory run
of one-or-more lowercase alphanumerics, `@`, one-or-more word characters,
a literal dot, one-to-six word characters — where word characters include
uppercase letters, so only the local part is forced lowercase (uppercase
domain parts are accepted), and the end anchor also tolerates one trailing
newline; in particular `john.doe@example.com` is kept while
`John@example.com` and `a@b.c` are dropped. -/
theorem email_filter_keeps_exactly_pattern (f g : Frame)
    (h : removeRowsWithoutMail f = some g) :
    (∀ r, r ∈ g.rows ↔ r ∈ f.rows ∧ EmailPat (pyAnchor r.email.toList)) ∧
    g.rows.Sublist f.rows ∧
    emailMatch "john.doe@example.com" = true ∧
    emailMatch "John@example.com" = false ∧
    emailMatch "a@b.c" = false := by
  obtain ⟨hrows, -⟩ := removeMail_eq f g h
  refine ⟨?_, ?_, by decide, by decide, by decide⟩
  · intro r
    rw [hrows, List.mem_filter]
    exact and_congr_right (fun _ => emailMatch_iff r.email)
  · rw [hrows]
    exact List.filter_sublist _

/-- Witness for C1 at a concrete one-row frame. -/
theorem email_filter_keeps_exactly_pattern_witness :
    exRowKept ∈ exFrameOnce.rows ↔
      exRowKept ∈ exFrameOk.rows ∧ EmailPat (pyAnchor exRowKept.email.toList) :=
  (email_filter_keeps_exactly_pattern exFrameOk exFrameOnce (by decide)).1 exRowKept

/-- Counterexample to claim C1 as stated: the claim asserts that uppercase
or mixed-case domain parts are rejected, but `\w` matches uppercase
letters, so the row with email `ab@EXAMPLE.COM` is retained by the
filter. -/
theorem email_filter_keeps_uppercase_domain :
    removeRowsWithoutMail exFrameUpper =
      some ⟨[exRowUpper], [0], [("index", [0])]⟩ := by decide

/-- Counterexample to claim C3 as stated: filtering an already-filtered
table does not yield the identical table, because `reset_index()` inserts
the previous index as an additional column on every application (first
`index`, then `level_0`). -/
theorem email_filter_not_identical_twice :
    removeRowsWithoutMail exFrameOk = some exFrameOnce ∧
    removeRowsWithoutMail exFrameOnce = some exFrameTwice ∧
    exFrameTwice ≠ exFrameOnce := by decide

/-- Claim C3 (amended): the email filter is idempotent on the rows and on
the reset ordinal index — refiltering an already-filtered table keeps
exactly the same rows and the same reset index — though the resulting
frame as a whole is not identical, differing by the extra column each
`reset_index()` inserts. -/
theorem email_filter_rows_index_idempotent (f g k : Frame)
    (h₁ : removeRowsWithoutMail f = some g)
    (h₂ : removeRowsWithoutMail g = some k) :
    k.rows = g.rows ∧ k.index = g.index := by
  obtain ⟨hg, hgi⟩ := removeMail_eq f g h₁
  obtain ⟨hk, hki⟩ := removeMail_eq g k h₂
  have hself : g.rows.filter (fun r => emailMatch r.email) = g.rows := by
    rw [List.filter_eq_self]
    intro r hr
    rw [hg, List.mem_filter] at hr
    exact hr.2
  refine ⟨by rw [hk, hself], ?_⟩
  rw [hki, hk, hself, hgi]

/-- Witness for C3 at a concrete chain of two filterings. -/
theorem email_filter_rows_index_idempotent_witness :
    exFrameTwice.rows = exFrameOnce.rows ∧
    exFrameTwice.index = exFrameOnce.index :=
  email_filter_rows_index_idempotent exFrameOk exFrameOnce exFrameTwice
    (by decide) (by decide)

/-! ### Imputation lemmas -/

theorem fillCell_some (v : ℚ) (c : Option ℚ) :
    fillCell (some v) c = some (c.getD v) := by
  cases c <;> rfl

theorem presentGrades_eq_nil_iff (r : Row) :
    presentGrades r = [] ↔ naCount r = 5 := by
  rcases r with ⟨a, g, e, q1, q2, q3, q4, q5⟩
  cases q1 <;> cases q2 <;> cases q3 <;> cases q4 <;> cases q5 <;>
    simp [presentGrades, gradesOf, naCount, List.countP_cons]

theorem fillRow_of_all_present (r : Row) (h : naCount r = 0) : fillRow r = r := by
  rcases r with ⟨a, g, e, q1, q2, q3, q4, q5⟩
  cases q1 <;> cases q2 <;> cases q3 <;> cases q4 <;> cases q5 <;>
    simp_all [naCount, gradesOf, List.countP_cons, fillRow, fillCell]

theorem fillRow_of_none_present (r : Row) (h : naCount r = 5) : fillRow r = r := by
  rcases r with ⟨a, g, e, q1, q2, q3, q4, q5⟩
  cases q1 <;> cases q2 <;> cases q3 <;> cases q4 <;> cases q5 <;>
    simp_all [naCount, gradesOf, List.countP_cons, fillRow, fillCell, rowMean,
      presentGrades]

theorem fillNaWithMean_fst_get (t : List Row) (i : ℕ) (r : Row)
    (h : t.get? i = some r) :
    (fillNaWithMean t).1.get? i = some (fillRow r) := by
  have h' : t[i]? = some r := by
    rw [← List.get?_eq_getElem?]
    exact h
  simp [fillNaWithMean, List.get?_eq_getElem?, List.getElem?_map, h']

/-- Claim C5: for every row with at least one but not all five grades
missing, the imputation replaces each missing grade of that row by the
arithmetic mean of the row's present grades and keeps the present grades,
while rows with no missing grade come back unchanged. -/
theorem imputation_fills_missing_with_row_mean (t : List Row) (i : ℕ) (r : Row)
    (hget : t.get? i = some r) :
    (0 < naCount r → naCount r < 5 →
      (fillNaWithMean t).1.get? i = some
        { age := r.age, gender := r.gender, email := r.email,
          q1 := some (r.q1.getD ((presentGrades r).sum / ((presentGrades r).length : ℚ))),
          q2 := some (r.q2.getD ((presentGrades r).sum / ((presentGrades r).length : ℚ))),
          q3 := some (r.q3.getD ((presentGrades r).sum / ((presentGrades r).length : ℚ))),
          q4 := some (r.q4.getD ((presentGrades r).sum / ((presentGrades r).length : ℚ))),
          q5 := some (r.q5.getD ((presentGrades r).sum / ((presentGrades r).length : ℚ))) }) ∧
    (naCount r = 0 → (fillNaWithMean t).1.get? i = some r) := by
  have hmap := fillNaWithMean_fst_get t i r hget
  constructor
  · intro h1 h5
    have hne : presentGrades r ≠ [] := by
      rw [ne_eq, presentGrades_eq_nil_iff]
      omega
    have hmean : rowMean r =
        some ((presentGrades r).sum / ((presentGrades r).length : ℚ)) := by
      rw [rowMean, if_neg hne]
    rw [hmap, fillRow, hmean]
    simp only [fillCell_some]
  · intro h0
    rw [hmap, fillRow_of_all_present r h0]

/-- Witness for C5: the row [80, NA, 90, NA, 100] becomes
[80, 90, 90, 90, 100]. -/
theorem imputation_fills_missing_with_row_mean_witness :
    0 < naCount exRowImpute ∧
    (fillNaWithMean [exRowImpute]).1.get? 0 =
      some ⟨some 30, some "f", "a", some 80, some 90, some 90, some 90, some 100⟩ := by
  refine ⟨by decide, ?_⟩
  have h := (imputation_fills_missing_with_row_mean [exRowImpute] 0 exRowImpute
    rfl).1 (by decide) (by decide)
  refine h.trans ?_
  have hfm : presentGrades exRowImpute = [80, 90, 100] := rfl
  rw [hfm]
  norm_num [exRowImpute, Row.mk.injEq]

/-- Counterexample to claim C2 as stated: the claim says the returned
positions are exactly those of rows that received at least one imputed
value, but a row with all five grades missing is reported (position 0
here) although the table comes back unchanged — no value was imputed. -/
theorem fill_na_index_includes_unimputed_row :
    fillNaWithMean [exRowAllNA] = ([exRowAllNA], [0]) := by decide

/-- Claim C2 (amended): the second result of the imputation is the
ascending, duplicate-free list of the positions of exactly those rows with
at least one missing grade — including rows with all five grades missing,
which receive no imputed value and come back unchanged. -/
theorem fill_na_index_lists_rows_with_missing (t : List Row) :
    List.Sorted (· < ·) (fillNaWithMean t).2 ∧
    (fillNaWithMean t).2.Nodup ∧
    (∀ i, i ∈ (fillNaWithMean t).2 ↔ ∃ r, t.get? i = some r ∧ 0 < naCount r) ∧
    (∀ i r, t.get? i = some r → naCount r = 5 →
      (fillNaWithMean t).1.get? i = some r) := by
  have hsorted : List.Sorted (· < ·) (fillNaWithMean t).2 :=
    List.Pairwise.filter _ (List.pairwise_lt_range t.length)
  refine ⟨hsorted, hsorted.imp (fun h => ne_of_lt h), ?_, ?_⟩
  · intro i
    rw [fillNaWithMean, List.mem_filter, List.mem_range]
    cases hr : t.get? i with
    | none =>
        simp only [hr]
        constructor
        · rintro ⟨-, h⟩
          exact absurd h (by simp)
        · rintro ⟨r, h, -⟩
          exact absurd h (by simp)
    | some r =>
        have hlt : i < t.length := by
          by_contra hge
          rw [List.get?_eq_none.mpr (by omega)] at hr
          exact absurd hr (by simp)
        simp only [hr, decide_eq_true_eq]
        constructor
        · rintro ⟨-, h⟩
          exact ⟨r, rfl, h⟩
        · rintro ⟨r', hr', h⟩
          rw [Option.some.injEq] at hr'
          subst hr'
          exact ⟨hlt, h⟩
  · intro i r hget h5
    rw [fillNaWithMean_fst_get t i r hget, fillRow_of_none_present r h5]

/-- Witness for C2 at a concrete table. -/
theorem fill_na_index_lists_rows_with_missing_witness :
    0 ∈ (fillNaWithMean [exRowImpute]).2 :=
  ((fill_na_index_lists_rows_with_missing [exRowImpute]).2.2.1 0).mpr
    ⟨exRowImpute, rfl, by decide⟩

/-! ### Scoring lemmas -/

theorem scoreSubjects_get (t : List Row) (m i : ℕ) (r : Row)
    (h : t.get? i = some r) :
    (scoreSubjects t m).get? i =
      some (if m < naCount r then none else rowMeanFloor r) := by
  have hlt : i < t.length := by
    by_contra hge
    rw [List.get?_eq_none.mpr (by omega)] at h
    exact absurd h (by simp)
  have hmem : i ∈ (List.range t.length).filter (fun j =>
      match t.get? j with
      | some r => decide (m < naCount r)
      | none => false) ↔ m < naCount r := by
    rw [List.mem_filter, List.mem_range, h]
    simp [hlt]
  rw [scoreSubjects, List.get?_eq_getElem?, List.getElem?_map,
    List.getElem?_range hlt]
  by_cases hc : m < naCount r
  · rw [Option.map_some', if_pos (hmem.mpr hc), if_pos hc]
  · rw [Option.map_some', if_neg (fun hin => hc (hmem.mp hin)), if_neg hc, h]

/-- Counterexample to claim C4 as stated: with `maximal_nans_per_sub = 5`,
a row with all five grades missing has missing-count 5, which does not
exceed the threshold, yet its score is NA (the mean of no grades is NaN,
`np.floor` of NaN is NaN, and the nullable-integer cast turns it into NA)
— so the score is not NA "exactly when" the missing count exceeds the
threshold. -/
theorem score_na_despite_count_within_threshold :
    scoreSubjects [exRowAllNA] 5 = [none] ∧ ¬ 5 < naCount exRowAllNA := by
  exact ⟨by decide, by decide⟩

/-- Claim C4 (amended): for every row, the score is NA exactly when the
count of missing grades strictly exceeds `maximal_nans_per_sub` or all
five grades are missing (NaN mean); otherwise it is the floor of the mean
of the present grades; the column has one entry per row and its NA state
is distinct from every numeric value. -/
theorem score_na_iff_too_many_missing (t : List Row) (m i : ℕ) (r : Row)
    (h : t.get? i = some r) :
    (scoreSubjects t m).get? i = some (
      if m < naCount r ∨ presentGrades r = [] then none
      else some ⌊(presentGrades r).sum / ((presentGrades r).length : ℚ)⌋) ∧
    (scoreSubjects t m).length = t.length ∧
    ∀ v : ℤ, (none : Option ℤ) ≠ some v := by
  refine ⟨?_, by simp [scoreSubjects], fun v hv => Option.noConfusion hv⟩
  rw [scoreSubjects_get t m i r h]
  by_cases h1 : m < naCount r
  · rw [if_pos h1, if_pos (Or.inl h1)]
  · rw [if_neg h1]
    by_cases h2 : presentGrades r = []
    · rw [if_pos (Or.inr h2), rowMeanFloor, rowMean, if_pos h2]
      rfl
    · rw [if_neg (by tauto), rowMeanFloor, rowMean, if_neg h2]
      rfl

/-- Witness for C4: grades [80, 90, 100, NA, NA] with threshold 1 score
NA; grades [81, 82, 83, 84, 85] score ⌊83⌋ = 83. -/
theorem score_na_iff_too_many_missing_witness :
    (scoreSubjects [exRowScoreNA, exRowFull] 1).get? 0 = some none ∧
    (scoreSubjects [exRowScoreNA, exRowFull] 1).get? 1 = some (some 83) := by
  constructor
  · refine ((score_na_iff_too_many_missing [exRowScoreNA, exRowFull] 1 0
      exRowScoreNA rfl).1).trans ?_
    decide
  · refine ((score_na_iff_too_many_missing [exRowScoreNA, exRowFull] 1 1
      exRowFull rfl).1).trans ?_
    have hfm : presentGrades exRowFull = [81, 82, 83, 84, 85] := rfl
    rw [hfm, if_neg (by decide)]
    have hv : ([81, 82, 83, 84, 85] : List ℚ).sum /
        ((([81, 82, 83, 84, 85] : List ℚ).length : ℕ) : ℚ) = 83 := by
      norm_num
    rw [hv]
    simp

/-! ### Histogram lemmas -/

theorem countP_or_disjoint (xs : List ℚ) (p q pr : ℚ → Bool)
    (hcover : ∀ x, pr x = (p x || q x))
    (hdisj : ∀ x, ¬(p x = true ∧ q x = true)) :
    xs.countP p + xs.countP q = xs.countP pr := by
  induction xs with
  | nil => simp
  | cons a l ih =>
      rw [List.countP_cons, List.countP_cons, List.countP_cons, hcover a]
      have hd := hdisj a
      rcases hp : p a <;> rcases hq : q a <;> simp_all <;> omega

theorem chain_head_le_getLast :
    ∀ (l : List ℚ) (a L : ℚ), List.Chain' (· ≤ ·) (a :: l) →
      (a :: l).getLast? = some L → a ≤ L := by
  intro l
  induction l with
  | nil =>
      intro a L _ hlast
      simp only [List.getLast?_singleton, Option.some.injEq] at hlast
      exact le_of_eq hlast
  | cons b l ih =>
      intro a L hchain hlast
      have hab : a ≤ b := (List.chain'_cons.mp hchain).1
      have hbl : b ≤ L := by
        refine ih b L (List.chain'_cons.mp hchain).2 ?_
        rw [← List.getLast?_cons_cons]
        exact hlast
      exact le_trans hab hbl

theorem histCounts_sum (xs : List ℚ) :
    ∀ (rest : List ℚ) (lo L : ℚ), List.Chain' (· ≤ ·) (lo :: rest) →
      (lo :: rest).getLast? = some L → rest ≠ [] →
      (histCounts xs (lo :: rest)).sum =
        xs.countP (fun x => decide (lo ≤ x ∧ x ≤ L)) := by
  intro rest
  induction rest with
  | nil =>
      intro lo L _ _ hne
      exact absurd rfl hne
  | cons hi rest2 ih =>
      intro lo L hchain hlast _
      cases rest2 with
      | nil =>
          have hL : L = hi := by
            rw [List.getLast?_cons_cons, List.getLast?_singleton,
              Option.some.injEq] at hlast
            exact hlast.symm
          subst hL
          simp [histCounts]
      | cons e rest3 =>
          have hlohi : lo ≤ hi := (List.chain'_cons.mp hchain).1
          have hchain2 : List.Chain' (· ≤ ·) (hi :: e :: rest3) :=
            (List.chain'_cons.mp hchain).2
          have hlast2 : (hi :: e :: rest3).getLast? = some L := by
            rw [← List.getLast?_cons_cons]
            exact hlast
          have hhiL : hi ≤ L := chain_head_le_getLast _ _ _ hchain2 hlast2
          have hsum2 := ih hi L hchain2 hlast2 (by simp)
          simp only [histCounts, List.sum_cons]
          rw [hsum2]
          refine countP_or_disjoint xs _ _ _ (fun x => ?_) (fun x => ?_)
          · rw [Bool.eq_iff_iff]
            simp only [Bool.or_eq_true, decide_eq_true_eq]
            constructor
            · rintro ⟨h1, h2⟩
              by_cases hxh : x < hi
              · exact Or.inl ⟨h1, hxh⟩
              · exact Or.inr ⟨le_of_not_lt hxh, h2⟩
            · rintro (⟨h1, h2⟩ | ⟨h1, h2⟩)
              · exact ⟨h1, le_trans (le_of_lt h2) hhiL⟩
              · exact ⟨le_trans hlohi h1, h2⟩
          · rintro ⟨h1, h2⟩
            rw [decide_eq_true_eq] at h1 h2
            exact absurd h2.1 (not_le_of_lt h1.2)

theorem countP_age_filterMap (t : List Row) (p : ℚ → Bool) :
    (t.filterMap (fun r => r.age)).countP p =
      t.countP (fun r =>
        match r.age with
        | some a => p a
        | none => false) := by
  induction t with
  | nil => rfl
  | cons r t ih =>
      cases hr : r.age with
      | none => simp [List.filterMap_cons, hr, List.countP_cons, ih]
      | some a => simp [List.filterMap_cons, hr, List.countP_cons, ih]

theorem ageEdges_eq :
    ageEdges = [0, 10, 20, 30, 40, 50, 60, 70, 80, 90, 100] := by
  norm_num [ageEdges, List.range_succ]

/-- Claim C6: the age distribution returns exactly 10 bin counts and the
11 bin edges 0, 10, ..., 100, the last bin closed on the right
(the tenth count covers ages in [90, 100]); ages outside [0, 100] are in
no bin, so the counts sum to the number of rows whose age lies in
[0, 100]; the table is not mutated. -/
theorem age_distrib_bins_edges_sum (t : List Row) :
    (showAgeDistrib t).2.1.length = 10 ∧
    (showAgeDistrib t).2.2 = [0, 10, 20, 30, 40, 50, 60, 70, 80, 90, 100] ∧
    (showAgeDistrib t).2.2.length = 11 ∧
    (showAgeDistrib t).2.1.sum = t.countP (fun r =>
      match r.age with
      | some a => decide (0 ≤ a ∧ a ≤ 100)
      | none => false) ∧
    (showAgeDistrib t).2.1.getLast? =
      some ((presentAges t).countP (fun a => decide ((90 : ℚ) ≤ a ∧ a ≤ 100))) ∧
    (showAgeDistrib t).1 = t := by
  refine ⟨?_, ageEdges_eq, ?_, ?_, ?_, rfl⟩
  · simp only [showAgeDistrib]
    rw [ageEdges_eq]
    rfl
  · simp only [showAgeDistrib]
    rw [ageEdges_eq]
    rfl
  · simp only [showAgeDistrib]
    rw [ageEdges_eq]
    have hs := histCounts_sum (presentAges t)
      [10, 20, 30, 40, 50, 60, 70, 80, 90, 100] 0 100
      (by norm_num [List.chain'_cons]) (by rfl) (by simp)
    rw [hs, ← countP_age_filterMap]
    rfl
  · simp only [showAgeDistrib]
    rw [ageEdges_eq]
    rfl

/-! ### Correlation lemmas -/

theorem keyLE_trans (a b c : String × Bool)
    (hab : keyLE a b = true) (hbc : keyLE b c = true) : keyLE a c = true := by
  rcases a with ⟨s₁, b₁⟩
  rcases b with ⟨s₂, b₂⟩
  rcases c with ⟨s₃, b₃⟩
  by_cases h12 : s₁ = s₂
  · subst h12
    by_cases h13 : s₁ = s₃
    · subst h13
      simp only [keyLE, if_pos rfl] at hab hbc ⊢
      cases b₁ <;> cases b₂ <;> cases b₃ <;> simp_all
    · simp only [keyLE, if_pos rfl, if_neg h13] at hab hbc ⊢
      exact hbc
  · by_cases h23 : s₂ = s₃
    · subst h23
      simp only [keyLE, if_neg h12] at hab ⊢
      exact hab
    · simp only [keyLE, if_neg h12, if_neg h23] at hab hbc
      have hlt : s₁ < s₃ :=
        lt_trans (of_decide_eq_true hab) (of_decide_eq_true hbc)
      simp only [keyLE, if_neg (ne_of_lt hlt)]
      exact decide_eq_true hlt

theorem keyLE_total (a b : String × Bool) :
    keyLE a b = true ∨ keyLE b a = true := by
  rcases a with ⟨s₁, b₁⟩
  rcases b with ⟨s₂, b₂⟩
  by_cases h : s₁ = s₂
  · subst h
    simp only [keyLE, if_pos rfl]
    cases b₁ <;> cases b₂ <;> simp
  · rcases lt_or_gt_of_ne h with hlt | hgt
    · left
      simp only [keyLE, if_neg h]
      exact decide_eq_true hlt
    · right
      simp only [keyLE, if_neg (Ne.symm h)]
      exact decide_eq_true hgt

theorem mem_sortedKeys (t : List Row) (k : String × Bool) :
    k ∈ sortedKeys t ↔ ∃ r ∈ t, rowKey r = some k := by
  rw [sortedKeys, List.mem_mergeSort, List.mem_dedup, List.mem_filterMap]

/-- Counterexample to claim C7 as stated: pandas `groupby` drops rows
whose group key contains NaN, so a row with missing gender contributes to
no group — its (gender, age > 40) combination occurs in the data but no
result row is emitted for it. -/
theorem correlation_drops_missing_gender :
    correlateGenderAge [exRowGenderNA] = [] ∧ exRowGenderNA.gender = none := by
  constructor
  · have h : List.filterMap rowKey [exRowGenderNA] = [] := rfl
    simp [correlateGenderAge, sortedKeys, h]
  · rfl

/-- Claim C7 (amended): the correlation summary groups the rows whose
gender is present by (gender, age > 40), emits exactly one result row per
such occurring key (rows with missing gender are dropped and produce no
key), orders the result by ascending key (gender first, then the boolean),
and each result row holds the missing-value-ignoring means of q1..q5 over
its group. -/
theorem correlation_groups_sorted_occurring (t : List Row) :
    ((correlateGenderAge t).map Prod.fst).Pairwise
      (fun k₁ k₂ => keyLE k₁ k₂ = true ∧ k₁ ≠ k₂) ∧
    (∀ k, k ∈ (correlateGenderAge t).map Prod.fst ↔
      ∃ r ∈ t, rowKey r = some k) ∧
    (∀ k v, (k, v) ∈ correlateGenderAge t → v = qMeans (groupRows t k)) := by
  have hmap : (correlateGenderAge t).map Prod.fst = sortedKeys t := by
    rw [correlateGenderAge, List.map_map]
    have hid : (Prod.fst ∘ fun k : String × Bool =>
        (k, qMeans (groupRows t k))) = id := rfl
    rw [hid, List.map_id]
  refine ⟨?_, ?_, ?_⟩
  · rw [hmap]
    have hsorted : (sortedKeys t).Pairwise (fun a b => keyLE a b = true) := by
      have h := List.sorted_mergeSort
        (fun a b c hab hbc => keyLE_trans a b c hab hbc)
        (fun a b => by
          rcases keyLE_total a b with h | h <;> simp [h])
        ((t.filterMap rowKey).dedup)
      exact h
    have hnodup : (sortedKeys t).Nodup := by
      rw [sortedKeys]
      exact ((List.mergeSort_perm _ _).nodup_iff).mpr (List.nodup_dedup _)
    exact hsorted.and hnodup
  · intro k
    rw [hmap]
    exact mem_sortedKeys t k
  · intro k v hkv
    rw [correlateGenderAge] at hkv
    obtain ⟨a, -, heq⟩ := List.mem_map.mp hkv
    rw [Prod.mk.injEq] at heq
    obtain ⟨rfl, hv⟩ := heq
    exact hv.symm

/-- Witness for C7: with two male rows aged 45 and 35, the key
(male, over 40) occurs and is emitted. -/
theorem correlation_groups_sorted_occurring_witness :
    ("male", true) ∈ (correlateGenderAge [exRowM45, exRowM35]).map Prod.fst :=
  ((correlation_groups_sorted_occurring [exRowM45, exRowM35]).2.1
    ("male", true)).mpr ⟨exRowM45, by decide, by decide⟩

/-- Claim C10: a row whose age is missing lands in the "not over 40"
group — its key is (gender, False) — and therefore contributes to that
group's q1..q5 means in the emitted summary. -/
theorem missing_age_in_not_over_40_group (t : List Row) (r : Row) (g : String)
    (hmem : r ∈ t) (hage : r.age = none) (hgender : r.gender = some g) :
    r ∈ groupRows t (g, false) ∧
    ((g, false), qMeans (groupRows t (g, false))) ∈ correlateGenderAge t := by
  have hkey : rowKey r = some (g, false) := by
    simp [rowKey, hgender, hage]
  constructor
  · rw [groupRows, List.mem_filter]
    exact ⟨hmem, by simp [hkey]⟩
  · rw [correlateGenderAge]
    refine List.mem_map.mpr ⟨(g, false), ?_, rfl⟩
    exact (mem_sortedKeys t _).mpr ⟨r, hmem, hkey⟩

/-- Witness for C10 at a one-row table with missing age. -/
theorem missing_age_in_not_over_40_group_witness :
    exRowAgeNA ∈ groupRows [exRowAgeNA] ("male", false) ∧
    (("male", false), qMeans (groupRows [exRowAgeNA] ("male", false))) ∈
      correlateGenderAge [exRowAgeNA] :=
  missing_age_in_not_over_40_group [exRowAgeNA] exRowAgeNA "male"
    (by decide) rfl rfl

/-! ### Construction -/

/-- Claim C9: construction fails with the invalid-input error exactly when
the source path does not name an existing file, and succeeds — storing the
path, with no further validation — when it does. -/
theorem constructor_fails_iff_not_file (isFile : String → Bool) (p : String) :
    ((∃ e, initProcessor isFile p = Except.error e) ↔ isFile p = false) ∧
    (isFile p = true → initProcessor isFile p = Except.ok p) := by
  cases hip : isFile p <;> simp [initProcessor, hip]

/-- Witness for C9: an abstract one-file filesystem accepts its file. -/
theorem constructor_fails_iff_not_file_witness :
    initProcessor (fun q => decide (q = "data.json")) "data.json" =
      Except.ok "data.json" :=
  (constructor_fails_iff_not_file _ "data.json").2 (by decide)

end HW5
